import Mathlib

/-!
# Verification of the raml2html resource-tree annotation pipeline

A shallow embedding of `lib/raml2html.js`. JavaScript strings are modelled
as `List Char`; absent object fields are modelled with `Option`; RAML
parameter definitions are treated as opaque string values (the code never
inspects them, it only moves them around).
-/

namespace Raml2Html

/-- JavaScript strings, modelled as lists of characters. -/
abbrev Str := List Char

/-- An opaque URI-parameter definition value (the code only copies these). -/
abbrev Param := Str

/-- A resource node of the RAML tree. The first three fields come from the
parser; the last three are absent (`none`) until `traverse` fills them in.
`uriParameters` is a mapping, modelled as an association list in its
iteration order; an absent mapping is modelled as `[]` (the JS `for..in`
loop over an absent mapping iterates zero times, so the behaviours agree). -/
inductive Resource where
  | mk (relativeUri : Str) (uriParameters : List (Str × Param))
       (resources : List Resource)
       (parentUrl : Option Str) (uniqueId : Option Str)
       (allUriParameters : Option (List Param))

/-- Field accessor: `resource.relativeUri`. -/
def Resource.relativeUri : Resource → Str
  | .mk rel _ _ _ _ _ => rel

/-- Field accessor: `resource.uriParameters`. -/
def Resource.uriParameters : Resource → List (Str × Param)
  | .mk _ ups _ _ _ _ => ups

/-- Field accessor: `resource.resources`. -/
def Resource.resources : Resource → List Resource
  | .mk _ _ rs _ _ _ => rs

/-- Field accessor: `resource.parentUrl`. -/
def Resource.parentUrl : Resource → Option Str
  | .mk _ _ _ pu _ _ => pu

/-- Field accessor: `resource.uniqueId`. -/
def Resource.uniqueId : Resource → Option Str
  | .mk _ _ _ _ uid _ => uid

/-- Field accessor: `resource.allUriParameters`. -/
def Resource.allUriParameters : Resource → Option (List Param)
  | .mk _ _ _ _ _ all => all

/-- The root RAML document object. -/
structure RamlObj where
  baseUri : Option Str
  version : Option Str
  resources : List Resource

/-- JavaScript string coercion of a possibly-absent string value:
`String(undefined)` is `"undefined"`. -/
def optStr : Option Str → Str
  | some s => s
  | none => "undefined".data

/-- The character class of the JS regex `\w`: ASCII letter, digit or
underscore (`[A-Za-z0-9_]`). -/
def isWordChar (c : Char) : Bool :=
  c.isAlpha || c.isDigit || c == '_'

/-- `s.replace(/\W/g, '_')`: every non-word character becomes `'_'`. -/
def replaceNonWord (s : Str) : Str :=
  s.map (fun c => if isWordChar c then c else '_')

/-- `makeUniqueId(resource)`: `(resource.parentUrl + resource.relativeUri)`
with every non-word character replaced by an underscore. -/
def makeUniqueId (r : Resource) : Str :=
  replaceNonWord (optStr r.parentUrl ++ r.relativeUri)

mutual
/-- The loop body of `traverse(ramlObj, parentUrl, allUriParameters)` for one
entry `resource` of `ramlObj.resources`, together with the recursive
`traverse(resource, resource.parentUrl + resource.relativeUri,
resource.allUriParameters)` call (which annotates `resource.resources`):
  1. `resource.parentUrl = parentUrl || ''` (JS `||` also maps `''` to `''`);
  2. `resource.uniqueId = makeUniqueId(resource)` (at this point `parentUrl`
     is already updated, the other annotation fields still hold their
     original values);
  3. `resource.allUriParameters` = the inherited parameter list (absent at
     the top-level call, modelled `none`) followed by the values of
     `resource.uriParameters` in iteration order. -/
def traverseResource (parentUrl : Option Str) (allUriParameters : Option (List Param)) :
    Resource → Resource
  | .mk rel ups rs _ uid0 all0 =>
    let pu := parentUrl.getD []
    let all := allUriParameters.getD [] ++ ups.map Prod.snd
    Resource.mk rel ups
      (traverseList (some (pu ++ rel)) (some all) rs)
      (some pu)
      (some (makeUniqueId (Resource.mk rel ups rs (some pu) uid0 all0)))
      (some all)

/-- The `for..in` loop of `traverse` over a `resources` mapping, annotating
each entry in turn. -/
def traverseList (parentUrl : Option Str) (allUriParameters : Option (List Param)) :
    List Resource → List Resource
  | [] => []
  | r :: rest =>
    traverseResource parentUrl allUriParameters r ::
      traverseList parentUrl allUriParameters rest
end

/-- `traverse(ramlObj)` as called from `compileRamlObj`: annotates every
entry of `ramlObj.resources` (with `parentUrl` and `allUriParameters` both
`undefined`) and returns the same object. -/
def traverse (obj : RamlObj) : RamlObj :=
  { obj with resources := traverseList none none obj.resources }

/-- Look a node up in a resource tree by a path of child indices
(an empty path addresses the node itself). -/
def getNode? : Resource → List Nat → Option Resource
  | r, [] => some r
  | r, i :: p =>
    match r.resources[i]? with
    | some c => getNode? c p
    | none => none

/-- Look a node up from the root document: the first index selects among the
document's top-level `resources`, the rest descend through child lists. -/
def getNodeRoot? (obj : RamlObj) : List Nat → Option Resource
  | [] => none
  | i :: p =>
    match obj.resources[i]? with
    | some c => getNode? c p
    | none => none

/-- The parameter definitions declared directly on a node, in iteration
order of its `uriParameters` mapping. -/
def ownParams (r : Resource) : List Param :=
  r.uriParameters.map Prod.snd

/-- The concatenation of the own parameter lists of all nodes along the path
from `r` down to the addressed node, in root-to-node order. -/
def paramsAlong? : Resource → List Nat → Option (List Param)
  | r, [] => some (ownParams r)
  | r, i :: p =>
    match r.resources[i]? with
    | some c => (paramsAlong? c p).map (fun ps => ownParams r ++ ps)
    | none => none

/-- `paramsAlong?` started from the root document. -/
def paramsAlongRoot? (obj : RamlObj) : List Nat → Option (List Param)
  | [] => none
  | i :: p =>
    match obj.resources[i]? with
    | some c => paramsAlong? c p
    | none => none

/-- The sum of the own parameter counts of the nodes along a path. -/
def ownCountSumAlong? : Resource → List Nat → Option Nat
  | r, [] => some (ownParams r).length
  | r, i :: p =>
    match r.resources[i]? with
    | some c => (ownCountSumAlong? c p).map (fun n => (ownParams r).length + n)
    | none => none

/-- `ownCountSumAlong?` started from the root document. -/
def ownCountSumAlongRoot? (obj : RamlObj) : List Nat → Option Nat
  | [] => none
  | i :: p =>
    match obj.resources[i]? with
    | some c => ownCountSumAlong? c p
    | none => none

/-- ES `StringIndexOf(s, pat, 0)`, the position of the first occurrence of
`pat` in `s`: the least `i` such that `pat` is a prefix of `s.drop i`
(`none` standing for the JS result `-1`; an empty pattern matches at 0). -/
def firstMatchIdx (pat s : Str) : Option Nat :=
  (List.range (s.length + 1)).find? (fun i => pat.isPrefixOf (s.drop i))

/-- ES `GetSubstitution` for a **string** search pattern (which has no
capture groups), applied to the replacement string: scanning left to right,
`$$` yields `$`; `$&` yields the matched substring; `$` followed by a
backtick (`Char.ofNat 96`) yields the portion of the subject before the
match; `$` followed by an apostrophe (`Char.ofNat 39`) yields the portion
after it; any other `$` — including `$n` digit references, since there are
no captures — is passed through literally, as is every other character
(the character after such a lone `$` is emitted with it: not being `$`, it
cannot begin a substitution pattern itself). -/
def getSubstitution (matched before after : Str) : Str → Str
  | [] => []
  | c :: rest =>
    if c = '$' then
      match rest with
      | [] => ['$']
      | d :: rest2 =>
        if d = '$' then '$' :: getSubstitution matched before after rest2
        else if d = '&' then matched ++ getSubstitution matched before after rest2
        else if d = Char.ofNat 96 then before ++ getSubstitution matched before after rest2
        else if d = Char.ofNat 39 then after ++ getSubstitution matched before after rest2
        else '$' :: d :: getSubstitution matched before after rest2
    else c :: getSubstitution matched before after rest

/-- JS `s.replace(pat, repl)` with **string** pattern and replacement
(ES `String.prototype.replace`): find the first occurrence of `pat`; if
there is none return `s` unchanged; otherwise splice in the replacement
processed by `GetSubstitution` (for a string pattern the matched substring
is `pat` itself). -/
def jsReplaceFirst (pat repl s : Str) : Str :=
  match firstMatchIdx pat s with
  | some i =>
    s.take i ++ getSubstitution pat (s.take i) (s.drop (i + pat.length)) repl ++
      s.drop (i + pat.length)
  | none => s

/-- Specification-level statement of "replace the first occurrence of the
literal substring `pat` by the string `repl` itself": splice `repl` in,
verbatim, at the least matching index, or return `s` unchanged when there
is no occurrence. This is the reading of C5's "replaces `{version}` with
the string value of `doc.version`"; it ignores the `$`-substitution the JS
builtin performs on the replacement. -/
def replaceFirstOccurrence (pat repl s : Str) : Str :=
  match firstMatchIdx pat s with
  | some i => s.take i ++ repl ++ s.drop (i + pat.length)
  | none => s

/-- The literal substring `"{version}"` substituted by `parseBaseUri`. -/
def versionPat : Str := "\x7bversion\x7d".data

/-- `parseBaseUri(ramlObj)`: when `ramlObj.baseUri` is truthy (present and
non-empty), `ramlObj.baseUri.replace('{version}', ramlObj.version)` — the
first occurrence of the literal `"{version}"` is replaced, with the string
coercion of `ramlObj.version` as the replacement string (so subject to
`GetSubstitution`); otherwise the object is left untouched. Returns the
(same) object. -/
def parseBaseUri (obj : RamlObj) : RamlObj :=
  match obj.baseUri with
  | none => obj
  | some b =>
    if b = [] then obj
    else { obj with baseUri := some (jsReplaceFirst versionPat (optStr obj.version) b) }

/-- A value returned by a handlebars helper: either a `handlebars.SafeString`
(pre-escaped, not re-escaped by the engine) or a plain string. -/
inductive HOut where
  | safe (s : Str)
  | plain (s : Str)
deriving DecidableEq

/-- `markDownHelper(text)`: converts `text` with the external `marked`
library (passed here as a function argument) and wraps the result in a
`SafeString`; an absent or empty `text` yields the plain empty string. -/
def markDownHelper (marked : Str → Str) (text : Option Str) : HOut :=
  match text with
  | some t => if t.length ≠ 0 then .safe (marked t) else .plain []
  | none => .plain []

/-- `highlightHelper(text)`: highlights `text` with the external
`hljs.highlightAuto` (passed here as a function argument) wrapped in a
`SafeString`; an absent or empty `text` yields the plain empty string. -/
def highlightHelper (highlightAuto : Str → Str) (text : Option Str) : HOut :=
  match text with
  | some t => if t.length ≠ 0 then .safe (highlightAuto t) else .plain []
  | none => .plain []

/-- The pre-escaped lock-icon marker snippet returned by `lockIconHelper`. -/
def lockSpan : Str :=
  " <span class=\"glyphicon glyphicon-lock\" title=\"Authentication required\"></span>".data

/-- `securedBy.indexOf(null)`: the index of the first `null` entry, `none`
standing for the JS result `-1`. -/
def indexOfNull : List (Option Str) → Option Nat
  | [] => none
  | none :: _ => some 0
  | some _ :: rest => (indexOfNull rest).map (· + 1)

/-- `lockIconHelper(securedBy)` in state-passing form. A security-scheme
reference is `Option Str`, `none` standing for the JS `null` entry; the
whole argument may be absent (`none`). The result pairs the state of the
caller's array **after** the call (the code mutates it with
`securedBy.splice(index, 1)` when `securedBy.indexOf(null)` is not `-1`)
with the returned value. -/
def lockIconHelper (securedBy : Option (List (Option Str))) :
    Option (List (Option Str)) × HOut :=
  match securedBy with
  | none => (none, .plain [])
  | some l =>
    if l.length ≠ 0 then
      let l2 :=
        match indexOfNull l with
        | some i => l.eraseIdx i
        | none => l
      if l2.length ≠ 0 then (some l2, .safe lockSpan) else (some l2, .plain [])
    else (some l, .plain [])

/-- Specification-level statement of "remove a single `null` entry (if
present)" from a security-scheme reference list. -/
def removeOneNull : List (Option Str) → List (Option Str)
  | [] => []
  | none :: rest => rest
  | some s :: rest => some s :: removeOneNull rest

/-- A JavaScript value passed as the `source` argument of
`sourceToRamlObj`. The constructors track exactly the distinctions the
code's `typeof`/`instanceof` dispatch makes: a buffer's contents coerce to
a string via `'' + source`, so a buffer carries its text. -/
inductive JSValue where
  | vstring (s : Str)
  | vbuffer (b : Str)
  | vnull
  | vobject (o : RamlObj)
  | vundefined
  | vnumber (n : Int)
  | vboolean (b : Bool)

/-- A callback invocation performed by `sourceToRamlObj`. -/
inductive CBCall where
  | success (v : JSValue)
  | error (e : Str)

/-- The argument-type error message of `sourceToRamlObj`. -/
def sourceErrMsg : Str :=
  "sourceToRamlObj: You must supply either file, data or obj as source.".data

/-- The single callback delivered by a settled `raml` parser promise via
`.then(onSuccess, onError)`. -/
def promiseCall : Except Str RamlObj → CBCall
  | .ok v => .success (.vobject v)
  | .error e => .error e

/-- `sourceToRamlObj(source, onSuccess, onError)`. External collaborators
are passed as functions: `fs.existsSync`, `raml.loadFile` (its promise
outcome) and `raml.load` (likewise). The result separates the callback
invocations made **synchronously during the call** (first component) from
those **scheduled to run after it returns** (second component; promise
`.then` handlers and `process.nextTick` callbacks are asynchronous even for
already-settled promises). Note `typeof null === 'object'`, so `null`
takes the already-parsed-object branch, and the final `else` branch calls
`onError` directly, synchronously. -/
def sourceToRamlObj (fsExistsSync : Str → Bool)
    (ramlLoadFile : Str → Except Str RamlObj) (ramlLoad : Str → Except Str RamlObj) :
    JSValue → List CBCall × List CBCall
  | .vstring s =>
    if fsExistsSync s then ([], [promiseCall (ramlLoadFile s)])
    else ([], [promiseCall (ramlLoad s)])
  | .vbuffer b => ([], [promiseCall (ramlLoad b)])
  | .vnull => ([], [.success .vnull])
  | .vobject o => ([], [.success (.vobject o)])
  | .vundefined => ([.error sourceErrMsg], [])
  | .vnumber _ => ([.error sourceErrMsg], [])
  | .vboolean _ => ([.error sourceErrMsg], [])

/-- Whether a `source` value is a string, a buffer, or (`typeof`-)object. -/
def isStrBufOrObj : JSValue → Bool
  | .vstring _ => true
  | .vbuffer _ => true
  | .vnull => true
  | .vobject _ => true
  | .vundefined => false
  | .vnumber _ => false
  | .vboolean _ => false

/-- JS truthiness of a possibly-absent string option value (`undefined` and
`''` are falsy). -/
def jsTruthy : Option Str → Bool
  | some s => s ≠ []
  | none => false

/-- An observable effect of the command-line `main` block. -/
inductive Effect where
  | printErr (s : Str)
  | printHelp
  | printLog (s : Str)
  | writeStdout (s : Str)
  | writeFileSync (path : Str) (contents : Str)
  | exitProcess (code : Nat)

/-- The usage error message printed by the CLI. -/
def usageMsg : Str := "Error: You need to specify the RAML input file".data

/-- The input the CLI resolves: the `-i` (`--input`) flag value when truthy,
else the single positional argument, else nothing (usage error). -/
def resolvedInput (input : Option Str) (args : List Str) : Option Str :=
  if jsTruthy input then input
  else if args.length ≠ 1 then none
  else some (args.headD [])

/-- The command-line entry block. `program.input`, `program.args` and
`program.output` are commander's (external) parse results, passed in as
arguments; the whole parse-and-render pipeline started by `parse(input, …)`
is likewise passed in as a function from the input to its outcome. The
result is the sequence of observable effects: on a missing input, print the
error, print usage (`program.help()`) and exit 1; on a parse error, log the
message and exit 1; on success, write the file, or write to stdout and
exit 0. -/
def main (input : Option Str) (args : List Str) (output : Option Str)
    (parsePipeline : Str → Except Str Str) : List Effect :=
  match resolvedInput input args with
  | none => [.printErr usageMsg, .printHelp, .exitProcess 1]
  | some inp =>
    match parsePipeline inp with
    | .ok result =>
      if jsTruthy output then [.writeFileSync (output.getD []) result]
      else [.writeStdout result, .exitProcess 0]
    | .error e => [.printLog ("Error parsing: ".data ++ e), .exitProcess 1]

/-- Example leaf resource `/posts` with one URI parameter `postId`. -/
def postsNode : Resource :=
  .mk "/posts".data [("postId".data, "postIdParam".data)] [] none none none

/-- Example resource `/users` with one URI parameter `id` and child
`/posts`. -/
def usersNode : Resource :=
  .mk "/users".data [("id".data, "idParam".data)] [postsNode] none none none

/-- Example document: a root with the single top-level resource `/users`. -/
def exampleObj : RamlObj := ⟨none, none, [usersNode]⟩

/-- The `/posts` node as annotated by `traverse` on `exampleObj`. -/
def postsAnnotated : Resource :=
  .mk "/posts".data [("postId".data, "postIdParam".data)] []
    (some "/users".data) (some "_users_posts".data)
    (some ["idParam".data, "postIdParam".data])

/-- The `/users` node as annotated by `traverse` on `exampleObj`. -/
def usersAnnotated : Resource :=
  .mk "/users".data [("id".data, "idParam".data)] [postsAnnotated]
    (some []) (some "_users".data) (some ["idParam".data])

/-- Example document with no resources at all. -/
def emptyObj : RamlObj := ⟨none, none, []⟩

/-- Example document exercising base-URI substitution. -/
def baseUriExample : RamlObj :=
  ⟨some "http://api.example.com/\x7bversion\x7d".data, some "v1".data, []⟩

/-- Example document whose version string consists of `$`-substitution
characters. -/
def dollarVersionExample : RamlObj :=
  ⟨some "http://api.example.com/\x7bversion\x7d".data, some "$$".data, []⟩

theorem traverseList_eq_map (pu : Option Str) (inh : Option (List Param)) :
    ∀ rs : List Resource, traverseList pu inh rs = rs.map (traverseResource pu inh) := by
  intro rs
  induction rs with
  | nil => rfl
  | cons r rest ih => rw [traverseList, ih, List.map_cons]

/-- Unfolded one-step equation for `traverseResource`. -/
theorem traverseResource_eq (pu : Option Str) (inh : Option (List Param))
    (rel : Str) (ups : List (Str × Param)) (rs : List Resource)
    (pu0 uid0 : Option Str) (all0 : Option (List Param)) :
    traverseResource pu inh (.mk rel ups rs pu0 uid0 all0) =
      Resource.mk rel ups
        (rs.map (traverseResource (some (pu.getD [] ++ rel))
          (some (inh.getD [] ++ ups.map Prod.snd))))
        (some (pu.getD []))
        (some (makeUniqueId (Resource.mk rel ups rs (some (pu.getD [])) uid0 all0)))
        (some (inh.getD [] ++ ups.map Prod.snd)) := by
  rw [traverseResource, traverseList_eq_map]

theorem paramsAlong_length : ∀ (p : List Nat) (r : Resource),
    (paramsAlong? r p).map List.length = ownCountSumAlong? r p := by
  intro p
  induction p with
  | nil => intro r; simp [paramsAlong?, ownCountSumAlong?]
  | cons i p ih =>
    intro r
    simp only [paramsAlong?, ownCountSumAlong?]
    cases h : r.resources[i]? with
    | none => rfl
    | some c =>
      simp only [Option.map_map]
      rw [← ih c]
      cases paramsAlong? c p <;> simp

/-- Every node reached inside an annotated subtree is itself the annotation
of the corresponding node of the original subtree, with the accumulated
parent URL and inherited parameter list made explicit. -/
theorem getNode_traverseResource : ∀ (p : List Nat) (r : Resource)
    (pu : Option Str) (inh : Option (List Param)) (node : Resource),
    getNode? (traverseResource pu inh r) p = some node →
    ∃ ps, paramsAlong? r p = some ps ∧
      node.allUriParameters = some (inh.getD [] ++ ps) := by
  intro p
  induction p with
  | nil =>
    intro r pu inh node h
    cases r with
    | mk rel ups rs pu0 uid0 all0 =>
      rw [traverseResource_eq] at h
      simp only [getNode?, Option.some_inj] at h
      refine ⟨ownParams (.mk rel ups rs pu0 uid0 all0), rfl, ?_⟩
      rw [← h]
      simp [Resource.allUriParameters, ownParams, Resource.uriParameters]
  | cons i p ih =>
    intro r pu inh node h
    cases r with
    | mk rel ups rs pu0 uid0 all0 =>
      rw [traverseResource_eq] at h
      simp only [getNode?, Resource.resources, List.getElem?_map] at h
      cases hc : rs[i]? with
      | none => rw [hc] at h; simp at h
      | some c =>
        rw [hc] at h
        simp only [Option.map_some'] at h
        obtain ⟨ps, hps, hall⟩ := ih c _ _ node h
        refine ⟨ownParams (.mk rel ups rs pu0 uid0 all0) ++ ps, ?_, ?_⟩
        · simp only [paramsAlong?, Resource.resources, hc, hps, Option.map_some']
        · rw [hall]
          simp [ownParams, Resource.uriParameters, List.append_assoc]

/-- Every node reached inside an annotated subtree carries a `parentUrl`,
and its `uniqueId` is the non-word-character normalisation of
`parentUrl + relativeUri`. -/
theorem getNode_uniqueId : ∀ (p : List Nat) (r : Resource)
    (pu : Option Str) (inh : Option (List Param)) (node : Resource),
    getNode? (traverseResource pu inh r) p = some node →
    ∃ pus, node.parentUrl = some pus ∧
      node.uniqueId = some (replaceNonWord (pus ++ node.relativeUri)) := by
  intro p
  induction p with
  | nil =>
    intro r pu inh node h
    cases r with
    | mk rel ups rs pu0 uid0 all0 =>
      rw [traverseResource_eq] at h
      simp only [getNode?, Option.some_inj] at h
      refine ⟨pu.getD [], ?_, ?_⟩ <;> rw [← h]
      · rfl
      · simp [Resource.uniqueId, Resource.relativeUri, makeUniqueId, optStr,
          Resource.parentUrl]
  | cons i p ih =>
    intro r pu inh node h
    cases r with
    | mk rel ups rs pu0 uid0 all0 =>
      rw [traverseResource_eq] at h
      simp only [getNode?, Resource.resources, List.getElem?_map] at h
      cases hc : rs[i]? with
      | none => rw [hc] at h; simp at h
      | some c =>
        rw [hc] at h
        simp only [Option.map_some'] at h
        exact ih c _ _ node h

theorem getSubstitution_no_dollar (matched before after : Str) :
    ∀ repl : Str, '$' ∉ repl →
      getSubstitution matched before after repl = repl := by
  intro repl
  induction repl with
  | nil => intro _; rfl
  | cons c rest ih =>
    intro h
    have hc : ¬ c = '$' := fun hcon => h (hcon ▸ List.mem_cons_self c rest)
    conv_lhs => rw [getSubstitution.eq_def]
    simp only [if_neg hc]
    rw [ih (fun hmem => h (List.mem_cons_of_mem c hmem))]

theorem jsReplaceFirst_no_dollar (pat repl s : Str) (h : '$' ∉ repl) :
    jsReplaceFirst pat repl s = replaceFirstOccurrence pat repl s := by
  unfold jsReplaceFirst replaceFirstOccurrence
  cases firstMatchIdx pat s with
  | none => rfl
  | some i =>
    show s.take i ++ getSubstitution pat (s.take i) (s.drop (i + pat.length)) repl ++
        s.drop (i + pat.length) =
      s.take i ++ repl ++ s.drop (i + pat.length)
    rw [getSubstitution_no_dollar pat (s.take i) (s.drop (i + pat.length)) repl h]

theorem indexOfNull_eraseIdx_eq_removeOneNull :
    ∀ l : List (Option Str),
      (match indexOfNull l with
       | some i => l.eraseIdx i
       | none => l) = removeOneNull l := by
  intro l
  induction l with
  | nil => rfl
  | cons x rest ih =>
    cases x with
    | none => simp [indexOfNull, removeOneNull, List.eraseIdx]
    | some s =>
      simp only [indexOfNull, removeOneNull]
      rw [← ih]
      rcases hf : indexOfNull rest with _ | i <;> simp [List.eraseIdx]

theorem traverse_resources_map (obj : RamlObj) :
    (traverse obj).resources = obj.resources.map (traverseResource none none) := by
  simp [traverse, traverseList_eq_map]

theorem paramsAlong_mem : ∀ (p : List Nat) (r : Resource) (ps : List Param),
    paramsAlong? r p = some ps → ∀ x ∈ ps,
    ∃ q anc, q <+: p ∧ getNode? r q = some anc ∧ x ∈ ownParams anc := by
  intro p
  induction p with
  | nil =>
    intro r ps h x hx
    simp only [paramsAlong?, Option.some_inj] at h
    exact ⟨[], r, List.nil_prefix, rfl, h ▸ hx⟩
  | cons i p ih =>
    intro r ps h x hx
    simp only [paramsAlong?] at h
    cases hc : r.resources[i]? with
    | none => rw [hc] at h; simp at h
    | some c =>
      rw [hc] at h
      simp only [Option.map_eq_some'] at h
      obtain ⟨ps', hcc, hfps⟩ := h
      rw [← hfps] at hx
      rcases List.mem_append.mp hx with hx1 | hx2
      · exact ⟨[], r, List.nil_prefix, rfl, hx1⟩
      · obtain ⟨q, anc, hq, hget, hmem⟩ := ih c ps' hcc x hx2
        refine ⟨i :: q, anc, ?_, ?_, hmem⟩
        · exact List.cons_prefix_cons.mpr ⟨rfl, hq⟩
        · simp [getNode?, hc, hget]

theorem replaceNonWord_wordChars (s : Str) :
    ∀ c ∈ replaceNonWord s, isWordChar c = true := by
  intro c hc
  simp only [replaceNonWord, List.mem_map] at hc
  obtain ⟨a, _, ha⟩ := hc
  by_cases h : isWordChar a
  · rw [← ha, if_pos h]; exact h
  · rw [← ha, if_neg h]; decide

/-- C1: after `traverse` runs, every node of the annotated tree has
`allUriParameters` equal to the concatenation of the own `uriParameters`
values of the nodes along the root-to-node path — all ancestors' own values
in root-to-parent order, then the node's own values in their mapping's
iteration order (`paramsAlongRoot?` is exactly this concatenation); its
length equals the sum of the own-parameter counts along that path; and
every element of it is an own-parameter value of a node on that path, so
none comes from a sibling or descendant node. -/
theorem claim_C1_allUriParameters (obj : RamlObj) (p : List Nat) (node : Resource)
    (h : getNodeRoot? (traverse obj) p = some node) :
    ∃ ps n, paramsAlongRoot? obj p = some ps ∧
      node.allUriParameters = some ps ∧
      ownCountSumAlongRoot? obj p = some n ∧ ps.length = n ∧
      ∀ x ∈ ps, ∃ q anc, q <+: p ∧ getNodeRoot? obj q = some anc ∧
        x ∈ ownParams anc := by
  cases p with
  | nil => simp [getNodeRoot?] at h
  | cons i p =>
    simp only [getNodeRoot?, traverse_resources_map, List.getElem?_map] at h
    cases hc : obj.resources[i]? with
    | none => rw [hc] at h; simp at h
    | some c =>
      rw [hc] at h
      simp only [Option.map_some'] at h
      obtain ⟨ps, hps, hall⟩ := getNode_traverseResource p c none none node h
      have hsum : ownCountSumAlong? c p = some ps.length := by
        rw [← paramsAlong_length, hps, Option.map_some']
      refine ⟨ps, ps.length, ?_, ?_, ?_, rfl, ?_⟩
      · simp [paramsAlongRoot?, hc, hps]
      · simpa using hall
      · simp [ownCountSumAlongRoot?, hc, hsum]
      · intro x hx
        obtain ⟨q, anc, hq, hget, hmem⟩ := paramsAlong_mem p c ps hps x hx
        refine ⟨i :: q, anc, List.cons_prefix_cons.mpr ⟨rfl, hq⟩, ?_, hmem⟩
        simp [getNodeRoot?, hc, hget]

theorem claim_C1_allUriParameters_witness :
    getNodeRoot? (traverse exampleObj) [0, 0] = some postsAnnotated ∧
    postsAnnotated.allUriParameters = some ["idParam".data, "postIdParam".data] ∧
    ownCountSumAlongRoot? exampleObj [0, 0] = some 2 := by
  have hget : getNodeRoot? (traverse exampleObj) [0, 0] = some postsAnnotated := rfl
  refine ⟨hget, ?_, rfl⟩
  obtain ⟨ps, n, h1, h2, _, _, _⟩ :=
    claim_C1_allUriParameters exampleObj [0, 0] postsAnnotated hget
  have hps : ps = ["idParam".data, "postIdParam".data] := by
    have h1x : some ps = some ["idParam".data, "postIdParam".data] := by
      rw [← h1]; rfl
    exact Option.some_inj.mp h1x
  rw [h2, hps]

/-- C2: after `traverse` runs, every node's `uniqueId` equals
`parentUrl + relativeUri` with every character that is not a letter, digit
or underscore replaced by an underscore; consequently every character of
every node's `uniqueId` is a letter, digit or underscore. -/
theorem claim_C2_uniqueId (obj : RamlObj) (p : List Nat) (node : Resource)
    (h : getNodeRoot? (traverse obj) p = some node) :
    (∃ pus, node.parentUrl = some pus ∧
      node.uniqueId = some (replaceNonWord (pus ++ node.relativeUri))) ∧
    ∀ u, node.uniqueId = some u → ∀ c ∈ u, isWordChar c = true := by
  cases p with
  | nil => simp [getNodeRoot?] at h
  | cons i p =>
    simp only [getNodeRoot?, traverse_resources_map, List.getElem?_map] at h
    cases hc : obj.resources[i]? with
    | none => rw [hc] at h; simp at h
    | some c =>
      rw [hc] at h
      simp only [Option.map_some'] at h
      obtain ⟨pus, hpu, huid⟩ := getNode_uniqueId p c none none node h
      refine ⟨⟨pus, hpu, huid⟩, ?_⟩
      intro u hu x hx
      rw [huid, Option.some_inj] at hu
      exact replaceNonWord_wordChars _ x (hu ▸ hx)

theorem claim_C2_uniqueId_witness :
    getNodeRoot? (traverse exampleObj) [0, 0] = some postsAnnotated ∧
    postsAnnotated.uniqueId = some "_users_posts".data ∧
    ∀ c ∈ "_users_posts".data, isWordChar c = true := by
  refine ⟨rfl, rfl, ?_⟩
  exact (claim_C2_uniqueId exampleObj [0, 0] postsAnnotated rfl).2 "_users_posts".data rfl

/-- C8: `traverse` returns the tree it was handed with only the resource
annotations changed (the functional rendering of "mutates and returns the
same tree object"): when the root's `resources` mapping is empty or absent
the call leaves the tree exactly as it was; the document's other fields are
untouched; and every direct child of the root is assigned
`parentUrl = ''`. -/
theorem claim_C8_traverse_contract (obj : RamlObj) :
    (obj.resources = [] → traverse obj = obj) ∧
    (traverse obj).baseUri = obj.baseUri ∧
    (traverse obj).version = obj.version ∧
    (traverse obj).resources.length = obj.resources.length ∧
    ∀ (i : Nat) (c : Resource),
      (traverse obj).resources[i]? = some c → c.parentUrl = some [] := by
  refine ⟨?_, rfl, rfl, ?_, ?_⟩
  · intro h
    cases obj with
    | mk b v rs =>
      simp only at h
      rw [h]
      simp [traverse, traverseList]
  · rw [traverse_resources_map, List.length_map]
  · intro i c hc
    rw [traverse_resources_map] at hc
    simp only [List.getElem?_map, Option.map_eq_some'] at hc
    obtain ⟨d, _, hd⟩ := hc
    cases d with
    | mk rel ups rs pu0 uid0 all0 =>
      rw [traverseResource_eq] at hd
      rw [← hd]
      rfl

theorem claim_C8_traverse_contract_witness :
    traverse emptyObj = emptyObj ∧
    (traverse exampleObj).resources[0]? = some usersAnnotated ∧
    usersAnnotated.parentUrl = some [] :=
  ⟨(claim_C8_traverse_contract emptyObj).1 rfl, rfl,
   (claim_C8_traverse_contract exampleObj).2.2.2.2 0 usersAnnotated rfl⟩

/-- C5 counterexample: the replacement string of `baseUri.replace` is
subject to `GetSubstitution`, so with `version = "$$"` the program yields
`"http://api.example.com/$"`, not the verbatim splice of the string value
of `version` (`"http://api.example.com/$$"`) that the claim asserts. -/
theorem claim_C5_counterexample :
    (parseBaseUri dollarVersionExample).baseUri =
      some "http://api.example.com/$".data ∧
    replaceFirstOccurrence versionPat (optStr dollarVersionExample.version)
      "http://api.example.com/\x7bversion\x7d".data =
      "http://api.example.com/$$".data ∧
    "http://api.example.com/$".data ≠ "http://api.example.com/$$".data :=
  ⟨rfl, rfl, by decide⟩

/-- C5 (amended): when `baseUri` is a present, non-empty string,
`parseBaseUri` replaces the first occurrence of the literal substring
`"{version}"` (`versionPat`) by the string value of `version` processed by
the JS replacement-pattern substitution (`GetSubstitution`); whenever the
version string contains no `$` character this is the string value of
`version` itself, spliced in verbatim; the other document fields are left
alone; when `"{version}"` does not occur, and when `baseUri` is absent or
empty, the document is unchanged. -/
theorem claim_C5_parseBaseUri (obj : RamlObj) :
    ((obj.baseUri = none ∨ obj.baseUri = some []) → parseBaseUri obj = obj) ∧
    (∀ b, obj.baseUri = some b → b ≠ [] →
      parseBaseUri obj =
        { obj with
          baseUri := some (jsReplaceFirst versionPat (optStr obj.version) b) }) ∧
    (∀ b, obj.baseUri = some b → b ≠ [] → '$' ∉ optStr obj.version →
      parseBaseUri obj =
        { obj with
          baseUri := some (replaceFirstOccurrence versionPat (optStr obj.version) b) }) ∧
    (∀ b, obj.baseUri = some b → b ≠ [] → firstMatchIdx versionPat b = none →
      parseBaseUri obj = obj) := by
  have hgen : ∀ b, obj.baseUri = some b → b ≠ [] →
      parseBaseUri obj =
        { obj with
          baseUri := some (jsReplaceFirst versionPat (optStr obj.version) b) } := by
    intro b hb hne
    simp [parseBaseUri, hb, hne]
  refine ⟨?_, hgen, ?_, ?_⟩
  · rintro (h | h) <;> simp [parseBaseUri, h]
  · intro b hb hne hd
    rw [hgen b hb hne, jsReplaceFirst_no_dollar versionPat (optStr obj.version) b hd]
  · intro b hb hne hnone
    rw [hgen b hb hne]
    have hid : jsReplaceFirst versionPat (optStr obj.version) b = b := by
      unfold jsReplaceFirst
      rw [hnone]
    rw [hid, ← hb]

theorem claim_C5_parseBaseUri_witness :
    parseBaseUri baseUriExample =
      { baseUriExample with baseUri := some "http://api.example.com/v1".data } ∧
    parseBaseUri emptyObj = emptyObj := by
  constructor
  · rw [(claim_C5_parseBaseUri baseUriExample).2.2.1
      "http://api.example.com/\x7bversion\x7d".data rfl (by decide) (by decide)]
    rfl
  · exact (claim_C5_parseBaseUri emptyObj).1 (Or.inl rfl)

/-- C3 counterexample: the lock-icon helper is not free of effects on its
argument: invoked on the list `[null, "oauth2"]` it removes the `null`
entry from the caller's list (`securedBy.splice(index, 1)`), so the list
after the call is `["oauth2"]` — its length and elements changed. -/
theorem claim_C3_counterexample :
    (lockIconHelper (some [none, some "oauth2".data])).1 =
      some [some "oauth2".data] ∧
    some [some "oauth2".data] ≠ some [none, some "oauth2".data] :=
  ⟨rfl, by decide⟩

/-- C3 (amended): the three helpers are functions of their inputs with no
state shared between calls, but the lock-icon helper is not pure in its
argument: it removes the first `null` entry from the caller's list when one
is present, and only when the list contains no `null` entry does it leave
the list (its length and elements) unchanged. -/
theorem claim_C3_lockIcon_state (l : List (Option Str)) :
    (lockIconHelper (some l)).1 = some (removeOneNull l) ∧
    ((∀ x ∈ l, x ≠ none) → removeOneNull l = l) ∧
    (none ∈ l → ∃ pre suf, l = pre ++ none :: suf ∧ none ∉ pre ∧
      removeOneNull l = pre ++ suf) := by
  refine ⟨?_, ?_, ?_⟩
  · cases l with
    | nil => rfl
    | cons x rest =>
      simp only [lockIconHelper, List.length_cons]
      rw [indexOfNull_eraseIdx_eq_removeOneNull]
      split
      · split <;> rfl
      · exfalso; omega
  · intro h
    induction l with
    | nil => rfl
    | cons x rest ih =>
      cases x with
      | none => exact absurd rfl (h none (List.mem_cons_self _ _))
      | some s =>
        rw [removeOneNull, ih]
        intro y hy
        exact h y (List.mem_cons_of_mem _ hy)
  · intro h
    induction l with
    | nil => simp at h
    | cons x rest ih =>
      cases x with
      | none => exact ⟨[], rest, rfl, List.not_mem_nil none, rfl⟩
      | some s =>
        have hr : none ∈ rest := by
          rcases List.mem_cons.mp h with h1 | h1
          · exact absurd h1.symm (Option.some_ne_none s)
          · exact h1
        obtain ⟨pre, suf, hsplit, hpre, hrem⟩ := ih hr
        refine ⟨some s :: pre, suf, by rw [hsplit, List.cons_append], ?_, ?_⟩
        · intro hmem
          rcases List.mem_cons.mp hmem with h1 | h1
          · exact Option.some_ne_none s h1.symm
          · exact hpre h1
        · rw [removeOneNull, hrem, List.cons_append]

theorem claim_C3_lockIcon_state_witness :
    (lockIconHelper (some [some "oauth2".data])).1 =
      some (removeOneNull [some "oauth2".data]) ∧
    removeOneNull [some "oauth2".data] = [some "oauth2".data] ∧
    (lockIconHelper (some [none, some "oauth2".data])).1 =
      some (removeOneNull [none, some "oauth2".data]) :=
  ⟨(claim_C3_lockIcon_state [some "oauth2".data]).1,
   (claim_C3_lockIcon_state [some "oauth2".data]).2.1 (by decide),
   (claim_C3_lockIcon_state [none, some "oauth2".data]).1⟩

/-- C6 counterexample: on the list `[null, null]` the lock-icon helper
returns the non-empty pre-escaped marker even though no non-null scheme
remains after removing a single `null` entry — the remaining entry is
itself `null` — so the claimed "marker iff a non-null scheme remains"
equivalence fails. -/
theorem claim_C6_counterexample :
    (lockIconHelper (some [none, none])).2 = HOut.safe lockSpan ∧
    lockSpan ≠ [] ∧
    ∀ x ∈ removeOneNull [none, none], x = none :=
  ⟨rfl, by decide, by decide⟩

/-- C6 (amended): the lock-icon helper returns the non-empty pre-escaped
marker iff at least one entry — null or not — remains after removing a
single `null` entry (if present); otherwise, and on an empty or absent
list, it returns the empty string. In particular `[null]` yields the empty
string, `[null, "oauth2"]` a non-empty marker, `[]` and absent the empty
string. -/
theorem claim_C6_lockIcon_return :
    lockSpan ≠ [] ∧
    (lockIconHelper none).2 = HOut.plain [] ∧
    ∀ l : List (Option Str),
      ((lockIconHelper (some l)).2 = HOut.safe lockSpan ↔ removeOneNull l ≠ []) ∧
      (removeOneNull l = [] → (lockIconHelper (some l)).2 = HOut.plain []) := by
  refine ⟨by decide, rfl, ?_⟩
  intro l
  cases l with
  | nil => simp [lockIconHelper, removeOneNull]
  | cons x rest =>
    have hrem : (match indexOfNull (x :: rest) with
        | some i => (x :: rest).eraseIdx i
        | none => x :: rest) = removeOneNull (x :: rest) :=
      indexOfNull_eraseIdx_eq_removeOneNull (x :: rest)
    constructor
    · simp only [lockIconHelper, List.length_cons]
      rw [hrem]
      rcases Nat.eq_zero_or_pos (removeOneNull (x :: rest)).length with h0 | h0
      · simp [List.length_eq_zero.mp h0, List.length_eq_zero]
      · have hne : removeOneNull (x :: rest) ≠ [] := by
          intro hcon; rw [hcon] at h0; simp at h0
        simp [hne, List.length_eq_zero]
    · intro h
      simp only [lockIconHelper, List.length_cons]
      rw [hrem, h]
      simp

theorem claim_C6_lockIcon_return_witness :
    (lockIconHelper (some [none])).2 = HOut.plain [] ∧
    (lockIconHelper (some [none, some "oauth2".data])).2 = HOut.safe lockSpan ∧
    (lockIconHelper (some [])).2 = HOut.plain [] ∧
    (lockIconHelper none).2 = HOut.plain [] :=
  ⟨(claim_C6_lockIcon_return.2.2 [none]).2 rfl,
   (claim_C6_lockIcon_return.2.2 [none, some "oauth2".data]).1.mpr (by decide),
   (claim_C6_lockIcon_return.2.2 []).2 rfl,
   claim_C6_lockIcon_return.2.1⟩

/-- C4 counterexample: when the source is neither string, buffer, nor
(`typeof`-)object — here the number `0` — `sourceToRamlObj` calls `onError`
directly, synchronously, during the call: the list of synchronous callback
invocations is not empty, so the error is not delivered asynchronously as
the claim states for all branches. -/
theorem claim_C4_counterexample :
    (sourceToRamlObj (fun _ => false) (fun _ => Except.error [])
      (fun _ => Except.error []) (JSValue.vnumber 0)).1 =
      [CBCall.error sourceErrMsg] ∧
    [CBCall.error sourceErrMsg] ≠ ([] : List CBCall) := by
  refine ⟨rfl, ?_⟩
  intro h
  simp at h

/-- C4 (amended): for every source value, `sourceToRamlObj` invokes exactly
one of the callbacks, exactly once; the invocation is asynchronous
(scheduled after the call, no callback runs during it) when the source is a
string, buffer, or object — `null` included — but for any other source the
argument-type error is delivered synchronously, during the call. -/
theorem claim_C4_sourceToRamlObj (fs : Str → Bool)
    (lf ld : Str → Except Str RamlObj) (src : JSValue) :
    ((sourceToRamlObj fs lf ld src).1 ++ (sourceToRamlObj fs lf ld src).2).length = 1 ∧
    (isStrBufOrObj src = true → (sourceToRamlObj fs lf ld src).1 = []) ∧
    (isStrBufOrObj src = false →
      sourceToRamlObj fs lf ld src = ([.error sourceErrMsg], [])) := by
  cases src with
  | vstring s =>
    by_cases h : fs s = true <;> simp [sourceToRamlObj, isStrBufOrObj, h]
  | vbuffer b => exact ⟨rfl, fun _ => rfl, fun h => by simp [isStrBufOrObj] at h⟩
  | vnull => exact ⟨rfl, fun _ => rfl, fun h => by simp [isStrBufOrObj] at h⟩
  | vobject o => exact ⟨rfl, fun _ => rfl, fun h => by simp [isStrBufOrObj] at h⟩
  | vundefined => exact ⟨rfl, fun h => by simp [isStrBufOrObj] at h, fun _ => rfl⟩
  | vnumber n => exact ⟨rfl, fun h => by simp [isStrBufOrObj] at h, fun _ => rfl⟩
  | vboolean b => exact ⟨rfl, fun h => by simp [isStrBufOrObj] at h, fun _ => rfl⟩

theorem claim_C4_sourceToRamlObj_witness :
    ((sourceToRamlObj (fun _ => false) (fun _ => Except.error [])
        (fun _ => Except.error []) (JSValue.vstring "x".data)).1 ++
      (sourceToRamlObj (fun _ => false) (fun _ => Except.error [])
        (fun _ => Except.error []) (JSValue.vstring "x".data)).2).length = 1 ∧
    (sourceToRamlObj (fun _ => false) (fun _ => Except.error [])
      (fun _ => Except.error []) (JSValue.vstring "x".data)).1 = [] ∧
    sourceToRamlObj (fun _ => false) (fun _ => Except.error [])
      (fun _ => Except.error []) JSValue.vundefined = ([.error sourceErrMsg], []) :=
  ⟨(claim_C4_sourceToRamlObj (fun _ => false) (fun _ => Except.error [])
      (fun _ => Except.error []) (JSValue.vstring "x".data)).1,
   (claim_C4_sourceToRamlObj (fun _ => false) (fun _ => Except.error [])
      (fun _ => Except.error []) (JSValue.vstring "x".data)).2.1 rfl,
   (claim_C4_sourceToRamlObj (fun _ => false) (fun _ => Except.error [])
      (fun _ => Except.error []) JSValue.vundefined).2.2 rfl⟩

/-- C7: an already-parsed plain object source is handed to the success
callback as the very same object, and asynchronously (via
`process.nextTick`): no callback runs during the call — any statement
placed synchronously after it executes first — and the single scheduled
invocation is `onSuccess` with that object. -/
theorem claim_C7_object_passthrough (fs : Str → Bool)
    (lf ld : Str → Except Str RamlObj) (o : RamlObj) :
    sourceToRamlObj fs lf ld (.vobject o) = ([], [.success (.vobject o)]) := rfl

/-- C10: since `typeof null === 'object'`, a `null` source does not take the
argument-type-error branch: it is dispatched to the already-parsed-object
branch and the success callback is scheduled asynchronously with `null`. -/
theorem claim_C10_null_source (fs : Str → Bool)
    (lf ld : Str → Except Str RamlObj) :
    sourceToRamlObj fs lf ld .vnull = ([], [.success .vnull]) := rfl

/-- C9: the CLI prints the usage error and exits with status 1 exactly when
no input is supplied — neither a truthy `-i` (`--input`) flag value nor
exactly one positional argument; and whenever the resolved input's parse
fails, it prints the parse-error message and exits with status 1. -/
theorem claim_C9_cli (input : Option Str) (args : List Str) (output : Option Str)
    (parsePipeline : Str → Except Str Str) :
    (resolvedInput input args = none ↔ jsTruthy input = false ∧ args.length ≠ 1) ∧
    (resolvedInput input args = none →
      main input args output parsePipeline =
        [.printErr usageMsg, .printHelp, .exitProcess 1]) ∧
    (∀ (inp e : Str), resolvedInput input args = some inp →
      parsePipeline inp = .error e →
      main input args output parsePipeline =
        [.printLog ("Error parsing: ".data ++ e), .exitProcess 1]) := by
  refine ⟨?_, ?_, ?_⟩
  · by_cases h1 : jsTruthy input = true
    · cases input with
      | none => simp [jsTruthy] at h1
      | some s => simp [resolvedInput, h1]
    · simp only [Bool.not_eq_true] at h1
      by_cases h2 : args.length = 1 <;> simp [resolvedInput, h1, h2]
  · intro h
    simp [main, h]
  · intro inp e h1 h2
    simp [main, h1, h2]

theorem claim_C9_cli_witness :
    main none [] none (fun _ => Except.ok []) =
      [Effect.printErr usageMsg, Effect.printHelp, Effect.exitProcess 1] ∧
    main none ["in.raml".data] none (fun _ => Except.error "bad".data) =
      [Effect.printLog ("Error parsing: ".data ++ "bad".data), Effect.exitProcess 1] :=
  ⟨(claim_C9_cli none [] none (fun _ => Except.ok [])).2.1 rfl,
   (claim_C9_cli none ["in.raml".data] none (fun _ => Except.error "bad".data)).2.2
     "in.raml".data "bad".data rfl rfl⟩

end Raml2Html
